import Mathlib

/-!
Verification development for `textnet/statistics.py`.

The module is a library of pure numeric functions over graphs and samples.
Python floats are modelled by `ℚ` (every claim input is a small rational and
every arithmetic step in scope is exact at this granularity); a Python `NaN`
result, and a raised `ZeroDivisionError` where the code has no guard, are
modelled by `none` in an `Option ℚ` result — each definition's doc comment
says which of the two its `none` stands for.  Directed graphs are modelled by
a vertex count together with an edge list.
-/

namespace Textnet

/-- Descending sort: Python `sorted(data, reverse=True)`. -/
def sortDesc (l : List ℚ) : List ℚ :=
  List.insertionSort (fun a b => b ≤ a) l

/-- Ascending sort: `np.sort`. -/
def sortAsc (l : List ℚ) : List ℚ :=
  List.insertionSort (fun a b => a ≤ b) l

/-- One step of the cumulative-sum loop in `gini_coeff`: the state is the
pair `(q0, sq)` of the running prefix sum and the accumulated sum of prefix
sums (the Python loop initialises `q0` at the first element, which equals
starting the fold from `(0, 0)`). -/
def giniStep (acc : ℚ × ℚ) (x : ℚ) : ℚ × ℚ :=
  (acc.1 + x, acc.2 + (acc.1 + x))

/-- The value of `sq` after `gini_coeff`'s loop over the sorted data. -/
def giniSq (d : List ℚ) : ℚ :=
  (d.foldl giniStep (0, 0)).2

/-- Python `gini_coeff(data)` from `statistics.py`.  `none` models the `NaN`
returned when the `try` block raises `ZeroDivisionError`: first at
`2 * sq / sum(d)` when `sum(d) == 0`, then at `n / (n - 1.)` when `n == 1`. -/
def gini_coeff (data : List ℚ) : Option ℚ :=
  let d := sortDesc data
  let n := d.length
  let sq := giniSq d
  if d.sum = 0 then none
  else if n = 1 then none
  else some ((n : ℚ) / ((n : ℚ) - 1) * (1 / (n : ℚ) * (2 * sq / d.sum - 1) - 1))

lemma sortDesc_perm (l : List ℚ) : List.Perm (sortDesc l) l :=
  List.perm_insertionSort _ l

lemma sortAsc_perm (l : List ℚ) : List.Perm (sortAsc l) l :=
  List.perm_insertionSort _ l

lemma sortDesc_eq_replicate (data : List ℚ) (c : ℚ) (hall : ∀ v ∈ data, v = c) :
    sortDesc data = List.replicate data.length c := by
  rw [List.eq_replicate_iff]
  exact ⟨(sortDesc_perm data).length_eq,
    fun b hb => hall b (((sortDesc_perm data).mem_iff).mp hb)⟩

lemma foldl_giniStep_replicate (n : ℕ) (c q0 sq : ℚ) :
    List.foldl giniStep (q0, sq) (List.replicate n c) =
      (q0 + (n : ℚ) * c, sq + (n : ℚ) * q0 + c * ((n : ℚ) * ((n : ℚ) + 1)) / 2) := by
  induction n generalizing q0 sq with
  | zero => simp
  | succ m ih =>
    rw [List.replicate_succ, List.foldl_cons]
    rw [show giniStep (q0, sq) c = (q0 + c, sq + (q0 + c)) from rfl, ih]
    rw [Prod.mk.injEq]
    constructor <;> · push_cast; ring

lemma giniSq_replicate (n : ℕ) (c : ℚ) :
    giniSq (List.replicate n c) = c * ((n : ℚ) * ((n : ℚ) + 1)) / 2 := by
  rw [giniSq, foldl_giniStep_replicate]; ring

/-- Claim C4: on a sample of fewer than two elements, `gini_coeff` returns
`NaN` (modelled `none`) and raises nothing: the `ZeroDivisionError` from
`sum(d) == 0` (empty or `[0]`) or from `n / (n - 1.)` at `n = 1` is caught
by the function's own `try`/`except`. -/
theorem gini_coeff_nan_of_short (data : List ℚ) (h : data.length < 2) :
    gini_coeff data = none := by
  match data with
  | [] => rfl
  | [a] =>
    have hs : sortDesc [a] = [a] := rfl
    simp [gini_coeff, hs, ite_self]
  | a :: b :: rest => simp at h; omega

/-- Witness for C4 at the concrete one-element sample `[5]`. -/
theorem gini_coeff_nan_witness :
    ([(5 : ℚ)] : List ℚ).length < 2 ∧ gini_coeff [5] = none :=
  ⟨by decide, gini_coeff_nan_of_short [5] (by decide)⟩

/-- Claim C8: a uniform sample (all elements the same nonzero value, at
least two of them) has Gini coefficient exactly 0. -/
theorem gini_coeff_uniform_zero (data : List ℚ) (c : ℚ)
    (hall : ∀ v ∈ data, v = c) (hlen : 2 ≤ data.length) (hc : c ≠ 0) :
    gini_coeff data = some 0 := by
  set n := data.length with hn
  have hd : sortDesc data = List.replicate n c := sortDesc_eq_replicate data c hall
  have hn0 : (n : ℚ) ≠ 0 := by
    exact_mod_cast Nat.cast_ne_zero.mpr (by omega)
  have hn1 : ((n : ℚ) - 1) ≠ 0 := by
    have : (2 : ℚ) ≤ (n : ℚ) := by exact_mod_cast hlen
    intro hcontra; nlinarith
  have hsum : (List.replicate n c).sum = (n : ℚ) * c := by
    rw [List.sum_replicate, nsmul_eq_mul]
  have hsum0 : (n : ℚ) * c ≠ 0 := mul_ne_zero hn0 hc
  simp only [gini_coeff, hd, hsum, List.length_replicate, giniSq_replicate]
  rw [if_neg hsum0, if_neg (by omega : ¬ n = 1)]
  have h2 : 2 * (c * ((n : ℚ) * ((n : ℚ) + 1)) / 2) / ((n : ℚ) * c) = (n : ℚ) + 1 := by
    field_simp
    ring
  rw [h2]
  have h3 : 1 / (n : ℚ) * ((n : ℚ) + 1 - 1) - 1 = 0 := by
    field_simp
  rw [h3, mul_zero]

/-- Witness for C8 at the concrete uniform sample `[1, 1, 1, 1]`. -/
theorem gini_coeff_uniform_witness :
    2 ≤ ([(1 : ℚ), 1, 1, 1] : List ℚ).length ∧ gini_coeff [1, 1, 1, 1] = some 0 :=
  ⟨by decide, gini_coeff_uniform_zero [1, 1, 1, 1] 1 (by decide) (by decide) (by decide)⟩

/-- Counterexample to claim C1: `gini_coeff([10, 0, 0, 0])` evaluates to
exactly 1, which is not within `1e-9` of the claimed 0.75.  (In IEEE-754
doubles the Python code also returns exactly `1.0` on this input: every
intermediate value except `4 / 3.` is exact, and the final rounding of
`(4 / 3.) * 0.75` lands on `1.0`.) -/
theorem gini_coeff_ten_counterexample :
    gini_coeff [10, 0, 0, 0] = some 1 ∧ ¬ |(1 : ℚ) - 3 / 4| ≤ 1 / 1000000000 := by
  constructor
  · norm_num [gini_coeff, sortDesc, giniSq, giniStep, List.insertionSort,
      List.orderedInsert]
  · rw [abs_le]; norm_num

/-- Claim C1 as amended: on `[10, 0, 0, 0]` the cumulative-sum formula with
its `n / (n - 1)` factor yields exactly 1 (the corrected-Gini maximum for a
single nonzero value among four), not 0.75. -/
theorem gini_coeff_ten_value : gini_coeff [10, 0, 0, 0] = some 1 := by
  norm_num [gini_coeff, sortDesc, giniSq, giniStep, List.insertionSort,
    List.orderedInsert]

/-- The retained sample of `cdf`: Python `x = x[x > 0]` keeps the positive
values. -/
def retained (x : List ℚ) : List ℚ :=
  x.filter (fun v => decide (0 < v))

/-- The sorted retained sample of `cdf`: Python `x = np.sort(np.array(x))`. -/
def cdfXs (x : List ℚ) : List ℚ :=
  sortAsc (retained x)

/-- Length of the sorted retained sample: `x.shape[0]` in `cdf`. -/
def cdfN (x : List ℚ) : ℕ :=
  (cdfXs x).length

/-- The empirical CDF value that `cdf` keeps for a value `v`: on a sorted
array, `np.searchsorted(x, x, side='left')` at the first occurrence of `v`
(which is the index `np.unique` selects) is the number of elements strictly
below `v`, and it is divided by `x.shape[0]`. -/
def cdfFrac (x : List ℚ) (v : ℚ) : ℚ :=
  ((cdfXs x).countP (fun w => decide (w < v)) : ℚ) / (cdfN x : ℚ)

/-- The pair `unique_data, cdf[unique_indices]` built inside Python `cdf`:
`np.unique` of the sorted array is its dedup (first occurrences, in order). -/
def cdfBase (x : List ℚ) : List ℚ × List ℚ :=
  ((cdfXs x).dedup, (cdfXs x).dedup.map (cdfFrac x))

/-- Python `cdf(x, survival)` from `statistics.py`: the final
`return x, 1 - cdf if survival else cdf`. -/
def cdf (x : List ℚ) (survival : Bool) : List ℚ × List ℚ :=
  ((cdfBase x).1, if survival then (cdfBase x).2.map (fun t => 1 - t) else (cdfBase x).2)

/-- Python `ccdf(x)` from `statistics.py`. -/
def ccdf (x : List ℚ) : List ℚ × List ℚ :=
  cdf x true

lemma cdfXs_sorted (x : List ℚ) : List.Sorted (· ≤ ·) (cdfXs x) :=
  List.sorted_insertionSort _ _

lemma cdfXs_dedup_pairwise_le (x : List ℚ) :
    List.Pairwise (· ≤ ·) (cdfXs x).dedup :=
  List.Pairwise.sublist (List.dedup_sublist _) (cdfXs_sorted x)

lemma cdfXs_dedup_pairwise_lt (x : List ℚ) :
    List.Pairwise (· < ·) (cdfXs x).dedup :=
  ((cdfXs_dedup_pairwise_le x).and (List.nodup_dedup _)).imp
    (fun h => lt_of_le_of_ne h.1 h.2)

lemma cdfN_pos (x : List ℚ) (h : retained x ≠ []) : 0 < (cdfN x : ℚ) := by
  have : (cdfXs x).length = (retained x).length := (sortAsc_perm _).length_eq
  have hne : (retained x).length ≠ 0 := fun hc => h (List.length_eq_zero.mp hc)
  exact_mod_cast Nat.pos_of_ne_zero (by rw [cdfN, this]; exact hne)

lemma cdfFrac_mono (x : List ℚ) (h : retained x ≠ []) {a b : ℚ} (hab : a ≤ b) :
    cdfFrac x a ≤ cdfFrac x b := by
  have hcount : (cdfXs x).countP (fun w => decide (w < a)) ≤
      (cdfXs x).countP (fun w => decide (w < b)) := by
    refine List.countP_mono_left (fun w _ hw => ?_)
    simp only [decide_eq_true_eq] at hw ⊢
    exact lt_of_lt_of_le hw hab
  exact (div_le_div_iff_of_pos_right (cdfN_pos x h)).mpr (Nat.cast_le.mpr hcount)

/-- Claim C6: with at least one positive value retained, `cdf`'s second
component is non-decreasing along the returned x-values and lies in `[0, 1]`,
and `ccdf` returns the same x-values paired with one minus the `cdf` values,
pointwise. -/
theorem cdf_monotone_bounded_ccdf (x : List ℚ) (h : retained x ≠ []) :
    List.Chain' (· ≤ ·) (cdf x false).2 ∧
    (∀ t ∈ (cdf x false).2, 0 ≤ t ∧ t ≤ 1) ∧
    (ccdf x).1 = (cdf x false).1 ∧
    (ccdf x).2 = (cdf x false).2.map (fun t => 1 - t) := by
  refine ⟨?_, ?_, rfl, rfl⟩
  · show List.Chain' (· ≤ ·) ((cdfXs x).dedup.map (cdfFrac x))
    rw [List.chain'_map]
    exact ((cdfXs_dedup_pairwise_le x).imp (fun hab => cdfFrac_mono x h hab)).chain'
  · intro t ht
    obtain ⟨v, _, rfl⟩ := List.mem_map.mp ht
    constructor
    · exact div_nonneg (Nat.cast_nonneg _) (le_of_lt (cdfN_pos x h))
    · exact (div_le_one (cdfN_pos x h)).mpr
        (Nat.cast_le.mpr (List.countP_le_length _))

/-- Witness for C6 at the concrete sample `[1]`. -/
theorem cdf_monotone_witness :
    retained [1] ≠ [] ∧ (ccdf [1]).2 = (cdf [1] false).2.map (fun t => 1 - t) :=
  ⟨by decide, (cdf_monotone_bounded_ccdf [1] (by decide)).2.2.2⟩

/-- Claim C10: with at least one positive value retained, `cdf`'s x-array is
strictly increasing and positive, each CDF value is the fraction of retained
elements strictly below its x-value, the first CDF value is 0, and no CDF
value equals 1. -/
theorem cdf_strict_fraction (x : List ℚ) (h : retained x ≠ []) :
    List.Chain' (· < ·) (cdf x false).1 ∧
    (∀ v ∈ (cdf x false).1, 0 < v) ∧
    (cdf x false).2 = (cdf x false).1.map
      (fun v => ((retained x).countP (fun w => decide (w < v)) : ℚ) /
        ((retained x).length : ℚ)) ∧
    (cdf x false).2.head? = some 0 ∧
    (∀ t ∈ (cdf x false).2, t ≠ 1) := by
  have hmem_xs : ∀ v ∈ (cdfXs x).dedup, v ∈ cdfXs x := fun v hv => List.mem_dedup.mp hv
  have hn := cdfN_pos x h
  refine ⟨?_, ?_, ?_, ?_, ?_⟩
  · show List.Chain' (· < ·) (cdfXs x).dedup
    exact (cdfXs_dedup_pairwise_lt x).chain'
  · intro v hv
    have : v ∈ retained x := (sortAsc_perm _).mem_iff.mp (hmem_xs v hv)
    have := List.of_mem_filter this
    simpa using this
  · show (cdfXs x).dedup.map (cdfFrac x) = _
    refine List.map_congr_left (fun v _ => ?_)
    rw [cdfFrac, cdfN, cdfXs, (sortAsc_perm (retained x)).countP_eq,
      (sortAsc_perm (retained x)).length_eq]
  · have hne : (cdfXs x).dedup ≠ [] := by
      have hxs : cdfXs x ≠ [] := by
        intro hc
        apply h
        have hlen := (sortAsc_perm (retained x)).length_eq
        rw [cdfXs] at hc
        rw [hc] at hlen
        exact List.length_eq_zero.mp hlen.symm
      intro hc
      obtain ⟨a, ha⟩ := List.exists_mem_of_ne_nil _ hxs
      exact (List.not_mem_nil a) (hc ▸ List.mem_dedup.mpr ha)
    obtain ⟨v0, rest, hu⟩ := List.exists_cons_of_ne_nil hne
    show ((cdfXs x).dedup.map (cdfFrac x)).head? = some 0
    rw [hu, List.map_cons, List.head?_cons]
    have hmin : ∀ w ∈ cdfXs x, v0 ≤ w := by
      intro w hw
      have hwu : w ∈ (cdfXs x).dedup := List.mem_dedup.mpr hw
      rw [hu] at hwu
      rcases List.mem_cons.mp hwu with hweq | hwr
      · exact le_of_eq hweq.symm
      · exact le_of_lt ((List.pairwise_cons.mp (hu ▸ cdfXs_dedup_pairwise_lt x)).1 w hwr)
    have hzero : (cdfXs x).countP (fun w => decide (w < v0)) = 0 := by
      refine List.countP_eq_zero.mpr (fun a ha => ?_)
      simpa using not_lt.mpr (hmin a ha)
    rw [cdfFrac, hzero]
    norm_num
  · intro t ht
    obtain ⟨v, hv, rfl⟩ := List.mem_map.mp ht
    have hvxs : v ∈ cdfXs x := hmem_xs v hv
    have hlt : (cdfXs x).countP (fun w => decide (w < v)) < cdfN x := by
      refine lt_of_le_of_ne (List.countP_le_length _) (fun hc => ?_)
      have := (List.countP_eq_length.mp hc) v hvxs
      simp at this
    exact ne_of_lt ((div_lt_one hn).mpr (by exact_mod_cast hlt))

/-- Witness for C10 at the concrete sample `[2]`. -/
theorem cdf_strict_witness :
    retained [2] ≠ [] ∧ (cdf [2] false).2.head? = some 0 :=
  ⟨by decide, (cdf_strict_fraction [2] (by decide)).2.2.2.1⟩

/-- The per-percentile share computed inside Python `lorenz`: for `p == 0`
the loop stores 0; otherwise it stores `sum(d[:int(floor(n * p))]) / float(s)`
over the descending-sorted data `d` with `n = len(d)` and `s = sum(d)`. -/
def lorenzShare (data : List ℚ) (px : ℚ) : ℚ :=
  if px = 0 then 0
  else ((sortDesc data).take (Int.toNat ⌊((sortDesc data).length : ℚ) * px⌋)).sum /
    (sortDesc data).sum

/-- Python `lorenz(data)` from `statistics.py`: percentiles
`p = np.arange(0.0, 1.01, 0.01)` (the 101 points `k / 100`) paired with the
cumulative shares. -/
def lorenz (data : List ℚ) : List ℚ × List ℚ :=
  ((List.range 101).map (fun (k : ℕ) => (k : ℚ) / 100),
   (List.range 101).map (fun (k : ℕ) => lorenzShare data ((k : ℚ) / 100)))

lemma sum_take_mono (l : List ℚ) (hl : ∀ v ∈ l, 0 ≤ v) :
    ∀ {a b : ℕ}, a ≤ b → (l.take a).sum ≤ (l.take b).sum := by
  induction l with
  | nil => intro a b _; simp
  | cons y ys ih =>
    intro a b hab
    match a, b with
    | 0, b =>
      refine List.sum_nonneg (fun v hv => hl v ?_)
      exact List.mem_of_mem_take hv
    | a + 1, b + 1 =>
      simp only [List.take_succ_cons, List.sum_cons]
      have := ih (fun v hv => hl v (List.mem_cons_of_mem y hv)) (Nat.succ_le_succ_iff.mp hab)
      linarith

lemma lorenzShare_nonneg (data : List ℚ) (h2 : ∀ v ∈ data, 0 ≤ v)
    (h3 : 0 < data.sum) (px : ℚ) : 0 ≤ lorenzShare data px := by
  rw [lorenzShare]
  split
  · exact le_refl 0
  · refine div_nonneg (List.sum_nonneg (fun v hv => ?_)) ?_
    · exact h2 v ((sortDesc_perm data).mem_iff.mp (List.mem_of_mem_take hv))
    · rw [(sortDesc_perm data).sum_eq]; exact le_of_lt h3

lemma lorenzShare_mono (data : List ℚ) (h2 : ∀ v ∈ data, 0 ≤ v)
    (h3 : 0 < data.sum) {px qx : ℚ} (hpx : 0 ≤ px) (hpq : px ≤ qx) :
    lorenzShare data px ≤ lorenzShare data qx := by
  by_cases hp0 : px = 0
  · rw [lorenzShare, if_pos hp0]
    exact lorenzShare_nonneg data h2 h3 qx
  · have hq0 : ¬ qx = 0 := by
      intro hc
      exact hp0 (le_antisymm (hc ▸ hpq) hpx)
    rw [lorenzShare, lorenzShare, if_neg hp0, if_neg hq0]
    have hsum : 0 < (sortDesc data).sum := by
      rw [(sortDesc_perm data).sum_eq]; exact h3
    refine (div_le_div_iff_of_pos_right hsum).mpr ?_
    refine sum_take_mono (sortDesc data)
      (fun v hv => h2 v ((sortDesc_perm data).mem_iff.mp hv)) ?_
    refine Int.toNat_le_toNat (Int.floor_le_floor ?_)
    exact mul_le_mul_of_nonneg_left hpq (Nat.cast_nonneg _)

/-- Claim C7: for a non-empty sample of non-negative values with positive
sum, `lorenz` samples the 101 percentile points `k / 100`, its cumulative
shares are non-decreasing, each share is the share of the total held by the
top `floor(n * p)` items of the descending-sorted data, and the final share
(at `p = 1`) is exactly 1. -/
theorem lorenz_spec (data : List ℚ) (_h1 : data ≠ []) (h2 : ∀ v ∈ data, 0 ≤ v)
    (h3 : 0 < data.sum) :
    (lorenz data).1 = (List.range 101).map (fun (k : ℕ) => (k : ℚ) / 100) ∧
    List.Chain' (· ≤ ·) (lorenz data).2 ∧
    (lorenz data).2 = (List.range 101).map
      (fun (k : ℕ) => ((sortDesc data).take
        (Int.toNat ⌊(data.length : ℚ) * ((k : ℚ) / 100)⌋)).sum / data.sum) ∧
    (lorenz data).2.getLast? = some 1 := by
  have hlen : (sortDesc data).length = data.length := (sortDesc_perm data).length_eq
  have hsum : (sortDesc data).sum = data.sum := (sortDesc_perm data).sum_eq
  refine ⟨rfl, ?_, ?_, ?_⟩
  · simp only [lorenz]
    rw [List.chain'_map, List.chain'_range_succ]
    intro m _
    refine lorenzShare_mono data h2 h3 (by positivity) ?_
    have hm : (m : ℚ) ≤ ((m + 1 : ℕ) : ℚ) := by push_cast; linarith
    exact (div_le_div_iff_of_pos_right (by norm_num : (0 : ℚ) < 100)).mpr hm
  · simp only [lorenz]
    refine List.map_congr_left (fun k hk => ?_)
    by_cases hk0 : k = 0
    · subst hk0
      rw [lorenzShare]
      norm_num
    · have hkq : ¬ ((k : ℚ) / 100 = 0) := by
        simp only [div_eq_zero_iff]
        push_neg
        exact ⟨Nat.cast_ne_zero.mpr hk0, by norm_num⟩
      rw [lorenzShare, if_neg hkq, hlen, hsum]
  · simp only [lorenz]
    rw [show (101 : ℕ) = 100 + 1 from rfl, List.range_succ, List.map_append,
      List.map_cons, List.map_nil, List.getLast?_concat]
    have h100 : ((100 : ℕ) : ℚ) / 100 = 1 := by norm_num
    rw [h100, lorenzShare, if_neg one_ne_zero, mul_one, hlen, Int.floor_natCast,
      Int.toNat_natCast, ← hlen, List.take_length, hsum, div_self (ne_of_gt h3)]

/-- Witness for C7 at the concrete sample `[1]`. -/
theorem lorenz_spec_witness :
    ([(1 : ℚ)] : List ℚ) ≠ [] ∧ (lorenz [1]).2.getLast? = some 1 :=
  ⟨by decide, (lorenz_spec [1] (by decide) (by decide) (by norm_num)).2.2.2⟩

/-- Directed graph: `vcount` vertices `0, …, vcount - 1` and a directed edge
list — the shape of the igraph graphs that `statistics.py` consumes. -/
structure DiGraph where
  vcount : ℕ
  edges : List (ℕ × ℕ)

/-- Adjacency of `u` and `w` ignoring edge direction (for the weak-component
and undirected-distance computations). -/
def undirAdj (G : DiGraph) (u w : ℕ) : Bool :=
  G.edges.any (fun e => (e.1 == u && e.2 == w) || (e.1 == w && e.2 == u))

/-- igraph `indegree()` entry: number of edges whose target is `v`. -/
def inDegree (G : DiGraph) (v : ℕ) : ℕ :=
  G.edges.countP (fun e => decide (e.2 = v))

/-- igraph `outdegree()` entry: number of edges whose source is `v`. -/
def outDegree (G : DiGraph) (v : ℕ) : ℕ :=
  G.edges.countP (fun e => decide (e.1 = v))

/-- Python `degree_distribution = np.array(graph.degree())`: per vertex, the
total degree of a directed graph is in-degree plus out-degree. -/
def degreeList (G : DiGraph) : List ℕ :=
  (List.range G.vcount).map (fun v => inDegree G v + outDegree G v)

/-- Python `in_degree_distribution = np.array(graph.indegree())`. -/
def inDegreeList (G : DiGraph) : List ℕ :=
  (List.range G.vcount).map (fun v => inDegree G v)

/-- numpy `.mean()` of an array: `none` models the `NaN` returned (with a
warning, not an exception) on an empty array. -/
def npMean (l : List ℚ) : Option ℚ :=
  if l = [] then none else some (l.sum / (l.length : ℚ))

/-- numpy `.var()` of an array (population variance, mean of squared
deviations): `none` models the `NaN` returned on an empty array. -/
def npVar (l : List ℚ) : Option ℚ :=
  if l = [] then none
  else some ((l.map (fun v => (v - l.sum / (l.length : ℚ)) ^ 2)).sum / (l.length : ℚ))

/-- One synchronous step of minimum-label propagation along undirected
edges; iterated `vcount` times it stabilises to the least vertex id of each
weak component, the model of igraph `components(mode="WEAK")`. -/
def labelStep (G : DiGraph) (lab : List ℕ) : List ℕ :=
  (List.range G.vcount).map (fun u =>
    (((List.range G.vcount).filter (fun w => undirAdj G u w)).map
      (fun w => lab.getD w u)).foldl min (lab.getD u u))

/-- Stabilised weak-component labels, one per vertex. -/
def weakLabels (G : DiGraph) : List ℕ :=
  (labelStep G)^[G.vcount] (List.range G.vcount)

/-- Sizes of the weak components: `map(len, graph.components(mode="WEAK"))`,
one entry per distinct stabilised label. -/
def componentSizes (G : DiGraph) : List ℕ :=
  (weakLabels G).dedup.map (fun l => (weakLabels G).count l)

/-- The `largest_component` computation in `graph_statistics`:
`max(map(len, components)) / len(graph.vs)` inside `try`, where Python's
`max` of an empty sequence raises `ValueError` and the division by
`len(graph.vs) == 0` raises `ZeroDivisionError`; both are caught and the
value defaults to 0. -/
def largest_component (G : DiGraph) : ℚ :=
  if componentSizes G = [] ∨ G.vcount = 0 then 0
  else (((componentSizes G).foldl max 0 : ℕ) : ℚ) / (G.vcount : ℚ)

/-- Result of one min-merge of two optional distances (used for the BFS
relaxation below; `none` is "unreachable"). -/
def optMin : Option ℕ → Option ℕ → Option ℕ
  | none, b => b
  | some a, none => some a
  | some a, some b => some (min a b)

/-- One synchronous relaxation step of undirected unit-weight shortest-path
distances: a vertex keeps the minimum of its own distance and each
neighbour's distance plus one. -/
def distStep (G : DiGraph) (d : List (Option ℕ)) : List (Option ℕ) :=
  (List.range G.vcount).map (fun u =>
    ((List.range G.vcount).filterMap (fun w =>
      if undirAdj G u w then (d.getD w none).map (fun t => t + 1) else none)).foldl
      (fun acc t => optMin acc (some t)) (d.getD u none))

/-- Undirected shortest-path distances from `v`; `vcount` relaxation rounds
cover every path. -/
def distancesFrom (G : DiGraph) (v : ℕ) : List (Option ℕ) :=
  (distStep G)^[G.vcount]
    ((List.range G.vcount).map (fun u => if u = v then some 0 else none))

/-- igraph `Graph.eccentricity()` (default mode ALL): per vertex, the
maximum finite undirected distance to a vertex of its component (0 for an
isolated vertex). -/
def eccentricity (G : DiGraph) : List ℚ :=
  (List.range G.vcount).map (fun v =>
    ((((distancesFrom G v).filterMap id).foldl max 0 : ℕ) : ℚ))

/-- numpy `percentile` with its default linear interpolation: on the sorted
values `s` of length `n`, the rank is `r = q / 100 * (n - 1)` and the result
`s[floor r] + (r - floor r) * (s[ceil r] - s[floor r])`; `ceil r` is written
`min (floor r + 1) (n - 1)`, which agrees because the second factor is 0
whenever `r` is integral. -/
def percentile (l : List ℚ) (q : ℚ) : ℚ :=
  let s := sortAsc l
  let r := q / 100 * ((s.length : ℚ) - 1)
  let lo := Int.toNat ⌊r⌋
  let hi := min (lo + 1) (s.length - 1)
  s.getD lo 0 + (r - (⌊r⌋ : ℚ)) * (s.getD hi 0 - s.getD lo 0)

/-- Python `effective_diameter(G, mode="OUT", q)` — the `mode == 'OUT'`
branch, the one `graph_statistics` and claim C9 use: `np.percentile` of
`G.eccentricity()` inside `try`, where `np.percentile` raises `IndexError`
on an empty array (empty graph) and the `except IndexError` turns that into
`None` (modelled `none`).  The non-`"OUT"` branch (full shortest-path
matrix) is outside every claim and not modelled. -/
def effective_diameter (G : DiGraph) (q : ℚ) : Option ℚ :=
  if eccentricity G = [] then none else some (percentile (eccentricity G) q)

/-- The record `graph_statistics` returns.  The fields `D` (igraph
`diameter`), `APL` (`average_path_length`) and `CC`
(`transitivity_avglocal_undirected`) are bare igraph library calls with no
logic in `statistics.py` and are left out; every field whose value
`statistics.py` itself computes is present. -/
structure GraphStats where
  n : ℕ
  m : ℕ
  ED : Option ℚ
  k : Option ℚ
  k_var : Option ℚ
  k_in : Option ℚ
  k_in_var : Option ℚ
  density : Option ℚ
  gini_d : Option ℚ
  gini_d_in : Option ℚ
  comp_f : ℚ

/-- The numpy boolean-mask filter `dist[dist > lower_degree_bounds]`. -/
def degFilter (l : List ℕ) (bound : ℤ) : List ℕ :=
  l.filter (fun d => decide (bound < (d : ℤ)))

/-- Python `graph_statistics(graph, lower_degree_bounds)`: the returned
dictionary.  `density` is igraph's directed density `m / (n * (n - 1))`,
`NaN` (`none`) when `n ≤ 1`. -/
def graph_statistics (G : DiGraph) (lower_degree_bounds : ℤ) : GraphStats :=
  { n := G.vcount
    m := G.edges.length
    ED := effective_diameter G 90
    k := npMean ((degFilter (degreeList G) lower_degree_bounds).map (fun d => (d : ℚ)))
    k_var := npVar ((degreeList G).map (fun d => (d : ℚ)))
    k_in := npMean ((degFilter (inDegreeList G) lower_degree_bounds).map (fun d => (d : ℚ)))
    k_in_var := npVar ((inDegreeList G).map (fun d => (d : ℚ)))
    density := if G.vcount ≤ 1 then none
      else some ((G.edges.length : ℚ) / ((G.vcount : ℚ) * ((G.vcount : ℚ) - 1)))
    gini_d := gini_coeff ((degFilter (degreeList G) lower_degree_bounds).map (fun d => (d : ℚ)))
    gini_d_in := gini_coeff ((degFilter (inDegreeList G) lower_degree_bounds).map (fun d => (d : ℚ)))
    comp_f := largest_component G }

/-- Claim C5: on a graph with no vertices the component-fraction computation
raises nothing (its `ValueError`/`ZeroDivisionError` is caught by the `try`)
and `comp_f` is 0. -/
theorem comp_f_empty_graph (G : DiGraph) (b : ℤ) (h : G.vcount = 0) :
    (graph_statistics G b).comp_f = 0 := by
  show largest_component G = 0
  rw [largest_component, if_pos (Or.inr h)]

/-- Witness for C5 at the concrete empty graph. -/
theorem comp_f_empty_graph_witness :
    (⟨0, []⟩ : DiGraph).vcount = 0 ∧ (graph_statistics ⟨0, []⟩ 0).comp_f = 0 :=
  ⟨rfl, comp_f_empty_graph ⟨0, []⟩ 0 rfl⟩

/-- Claim C2 as amended: the degree means `k` and `k_in` are computed only
over nodes whose degree exceeds the threshold, but the variances `k_var`
and `k_in_var` are computed over the full, unfiltered distributions. -/
theorem graph_statistics_degree_fields (G : DiGraph) (b : ℤ) :
    (graph_statistics G b).k =
      npMean ((degFilter (degreeList G) b).map (fun d => (d : ℚ))) ∧
    (graph_statistics G b).k_var = npVar ((degreeList G).map (fun d => (d : ℚ))) ∧
    (graph_statistics G b).k_in =
      npMean ((degFilter (inDegreeList G) b).map (fun d => (d : ℚ))) ∧
    (graph_statistics G b).k_in_var = npVar ((inDegreeList G).map (fun d => (d : ℚ))) :=
  ⟨rfl, rfl, rfl, rfl⟩

/-- Counterexample to claim C2: in the two-vertex graph with the single edge
`0 → 1` and the default threshold 0, the in-degree distribution is `[0, 1]`;
the returned `k_in_var` is its full variance 1/4, not the variance 0 of the
restricted distribution `[1]`. -/
theorem graph_statistics_var_counterexample :
    (graph_statistics ⟨2, [(0, 1)]⟩ 0).k_in_var = some (1 / 4) ∧
    npVar ((degFilter (inDegreeList ⟨2, [(0, 1)]⟩) 0).map (fun d => (d : ℚ))) = some 0 ∧
    (graph_statistics ⟨2, [(0, 1)]⟩ 0).k_in_var ≠
      npVar ((degFilter (inDegreeList ⟨2, [(0, 1)]⟩) 0).map (fun d => (d : ℚ))) := by
  have h1 : (inDegreeList ⟨2, [(0, 1)]⟩).map (fun d => (d : ℚ)) = [0, 1] := by
    norm_num [inDegreeList, inDegree, List.range_succ, List.countP_cons,
      List.countP_nil]
  have h2 : (degFilter (inDegreeList ⟨2, [(0, 1)]⟩) 0).map (fun d => (d : ℚ)) = [1] := by
    norm_num [inDegreeList, inDegree, degFilter, List.range_succ,
      List.countP_cons, List.countP_nil, List.filter]
  have hv1 : (graph_statistics ⟨2, [(0, 1)]⟩ 0).k_in_var = some (1 / 4) := by
    show npVar ((inDegreeList ⟨2, [(0, 1)]⟩).map (fun d => (d : ℚ))) = some (1 / 4)
    rw [h1, npVar, if_neg (by decide)]
    norm_num
  have hv2 : npVar ((degFilter (inDegreeList ⟨2, [(0, 1)]⟩) 0).map
      (fun d => (d : ℚ))) = some 0 := by
    rw [h2, npVar, if_neg (by decide)]
    norm_num
  refine ⟨hv1, hv2, ?_⟩
  rw [hv1, hv2]
  norm_num

/-- Claim C9: in mode `"OUT"`, `effective_diameter` returns `None` exactly
when the graph has no eccentricities (an empty graph), and otherwise returns
the q-th percentile of the node eccentricities. -/
theorem effective_diameter_out_spec (G : DiGraph) (q : ℚ) :
    (G.vcount = 0 → effective_diameter G q = none) ∧
    (0 < G.vcount → effective_diameter G q = some (percentile (eccentricity G) q)) := by
  have hlen : (eccentricity G).length = G.vcount := by
    rw [eccentricity, List.length_map, List.length_range]
  constructor
  · intro h
    rw [effective_diameter, if_pos (List.length_eq_zero.mp (by rw [hlen, h]))]
  · intro h
    rw [effective_diameter, if_neg]
    intro hc
    rw [hc] at hlen
    simp only [List.length_nil] at hlen
    omega

/-- Witness for C9 at the empty graph and the one-vertex graph. -/
theorem effective_diameter_out_witness :
    effective_diameter ⟨0, []⟩ 90 = none ∧
    effective_diameter ⟨1, []⟩ 90 = some (percentile (eccentricity ⟨1, []⟩) 90) :=
  ⟨(effective_diameter_out_spec ⟨0, []⟩ 90).1 rfl,
   (effective_diameter_out_spec ⟨1, []⟩ 90).2 (by decide)⟩

/-- Earliest timestamp value of the time index: pandas `time_index.min()`.
Timestamps are modelled as integer day numbers, so Python's
`(t1 - t2).days` is plain integer subtraction here. -/
def tmind (ti : List (ℕ × ℤ)) : ℤ :=
  match ti.map Prod.snd with
  | [] => 0
  | t :: ts => ts.foldl min t

/-- Latest timestamp value of the time index: pandas `time_index.max()`. -/
def tmaxd (ti : List (ℕ × ℤ)) : ℤ :=
  match ti.map Prod.snd with
  | [] => 0
  | t :: ts => ts.foldl max t

/-- Lookup `time_index[k]`.  A missing key would raise `KeyError` in pandas —
an uncaught input error outside every claim — and is modelled by day 0. -/
def tiGet (ti : List (ℕ × ℤ)) (k : ℕ) : ℤ :=
  (ti.lookup k).getD 0

/-- The inner `normalizer(t1, t2)` of `linear_attachment_score`: when
`normalized` it returns 0 as soon as `(t1 - t_min).days == 0`, guarding its
division; otherwise
`(t1 - t2).days * (t_max - t_min).days / (t1 - t_min).days` with Python's
true division of integers; when not `normalized` it is plain
`(t1 - t2).days`. -/
def laNormalizer (ti : List (ℕ × ℤ)) (normalized : Bool) (t1 t2 : ℤ) : ℚ :=
  if normalized then
    if t1 - tmind ti = 0 then 0
    else (((t1 - t2) * (tmaxd ti - tmind ti) : ℤ) : ℚ) / ((t1 - tmind ti : ℤ) : ℚ)
  else ((t1 - t2 : ℤ) : ℚ)

/-- The `scores` list of `linear_attachment_score`: for each story whose
choices contain at least one candidate with similarity at least `sigma`, the
mean of the normalized time differences to those candidates. -/
def laScores (nb : List (ℕ × List (ℕ × ℚ))) (ti : List (ℕ × ℤ)) (sigma : ℚ)
    (normalized : Bool) : List ℚ :=
  nb.foldr (fun sc acc =>
    let tds := sc.2.filterMap (fun ps =>
      if sigma ≤ ps.2 then
        some (laNormalizer ti normalized (tiGet ti sc.1) (tiGet ti ps.1))
      else none)
    if tds = [] then acc else (tds.sum / (tds.length : ℚ)) :: acc) []

/-- Python `linear_attachment_score(neighbors, time_index, sigma, normalized)`.
The final line `sum(scores) / len(scores) / float((t_max - t_min).days)` has
no guard, so `none` models the `ZeroDivisionError` it raises when `scores`
is empty or when the day span `t_max - t_min` is zero. -/
def linear_attachment_score (nb : List (ℕ × List (ℕ × ℚ))) (ti : List (ℕ × ℤ))
    (sigma : ℚ) (normalized : Bool) : Option ℚ :=
  let scores := laScores nb ti sigma normalized
  if scores = [] then none
  else if tmaxd ti - tmind ti = 0 then none
  else some (scores.sum / (scores.length : ℚ) / ((tmaxd ti - tmind ti : ℤ) : ℚ))

/-- Counterexample to claim C3: with the neighbor map `{0: {}}` (one story
with no candidate, so no candidate reaches the sigma threshold for any item)
and the time index `{0 ↦ day 0, 1 ↦ day 5}`, the score list is empty and the
unguarded `sum(scores) / len(scores)` raises `ZeroDivisionError` (modelled
`none`) instead of converting it locally to a sentinel value. -/
theorem linear_attachment_score_counterexample :
    linear_attachment_score [(0, [])] [(0, 0), (1, 5)] (1 / 2) true = none := by
  rfl

/-- Claim C3 as amended: the normalizer does return 0 whenever an item's
timestamp equals the earliest timestamp (that division is guarded), but the
final aggregation has no guard: `linear_attachment_score` raises
`ZeroDivisionError` (modelled `none`) exactly when no story has a candidate
reaching the sigma threshold or when the observed day span is zero. -/
theorem linear_attachment_score_amended (nb : List (ℕ × List (ℕ × ℚ)))
    (ti : List (ℕ × ℤ)) (sigma : ℚ) (normalized : Bool) (t2 : ℤ) :
    laNormalizer ti true (tmind ti) t2 = 0 ∧
    (linear_attachment_score nb ti sigma normalized = none ↔
      laScores nb ti sigma normalized = [] ∨ tmaxd ti - tmind ti = 0) := by
  constructor
  · simp [laNormalizer, sub_self]
  · rw [linear_attachment_score]
    by_cases hs : laScores nb ti sigma normalized = []
    · simp [hs]
    · rw [if_neg hs]
      by_cases hd : tmaxd ti - tmind ti = 0
      · simp [hs, hd]
      · simp [hs, hd]

end Textnet
